import Mathlib

/-!
Verification of the version-synchronization engine of the apply-versions
repository.  The TypeScript sources are shallowly embedded: file contents are
lists of characters, the filesystem is an association list from paths to
contents, and every updater method becomes a pure Lean function threading the
filesystem explicitly.  Effectful collaborators that live outside the verified
core (the git binary, npm, the JSON library) are modelled as oracle
parameters, mirroring the spec's "external collaborator" boundary.
-/

set_option maxHeartbeats 1000000

/-- Characters of a file or path; all string manipulation in the embedding is
done on lists of characters so that concrete runs reduce well in the kernel. -/
abbrev Str := List Char

deriving instance DecidableEq for Except

/-- Whitespace test mirroring the JavaScript regex class \s on the ASCII
range (space, tab, newline, carriage return, vertical tab, form feed). -/
def isWsChar (c : Char) : Bool :=
  c = ' ' ∨ c = '\t' ∨ c = '\n' ∨ c = '\r' ∨ c = '\x0b' ∨ c = '\x0c'

/-- Character class [A-Za-z0-9_.-] used by the workspace-dependency entry
regex in rust-updater.ts. -/
def isBareKeyChar (c : Char) : Bool :=
  (('A' ≤ c ∧ c ≤ 'Z') ∨ ('a' ≤ c ∧ c ≤ 'z') ∨ ('0' ≤ c ∧ c ≤ '9')
    ∨ c = '_' ∨ c = '.' ∨ c = '-')

namespace Glob

/-- One element of the regular expression compiled by
RustPackageUpdater.getWorkspaceGlobPattern: a literal character (escaped or
plain), a literal made optional by a following unescaped question mark, the
[^/]* class compiled from *, or the dot-star compiled from **. -/
inductive GTok where
  | lit (c : Char)
  | optLit (c : Char)
  | oneStar
  | twoStar
  deriving DecidableEq, Repr

/-- The JavaScript line terminators, which the dot of a regular expression
never matches. -/
def isLineTerm (c : Char) : Bool :=
  c = '\n' ∨ c = '\r' ∨ c = '\u2028' ∨ c = '\u2029'

/-- What the engine's dot class accepts: any character except a line
terminator.  The ** of a member pattern compiles to dot-star, so this is
the character test of the code's two-star token. -/
def jsDot (c : Char) : Bool :=
  !isLineTerm c

/-- The tokenization the CLAIM describes (the spec's words): two stars,
one star, and every other character taken literally - including the
question mark.  This is the spec-side definition, to be compared with
globCompile, the model of the code, which treats an unescaped question
mark as a quantifier. -/
def specGlobTokens : Str → List GTok
  | [] => []
  | '*' :: '*' :: r => GTok.twoStar :: specGlobTokens r
  | '*' :: r => GTok.oneStar :: specGlobTokens r
  | c :: r => GTok.lit c :: specGlobTokens r

/-- Faithful model of getWorkspaceGlobPattern followed by RegExp parsing.
The split prefers ** over *, and the escape class of the source -
dot + ^ $ braces parens pipe brackets backslash - omits the question mark,
so an unescaped ? survives into the regex as a quantifier: after a literal
it makes that literal optional; after a star class it is the lazy modifier
(acceptance unchanged); a second ? is the lazy form of the optional
quantifier (acceptance unchanged); and a ? with nothing to repeat - at the
start of the pattern, right after the lazy modifier of a star, or as a
third quantifier in a row - makes the RegExp constructor throw, modelled
by none. -/
def globCompile : Str → Option (List GTok)
  | [] => some []
  | '*' :: '*' :: '?' :: '?' :: _ => none
  | '*' :: '*' :: '?' :: rest => (globCompile rest).map (fun ts => GTok.twoStar :: ts)
  | '*' :: '*' :: rest => (globCompile rest).map (fun ts => GTok.twoStar :: ts)
  | '*' :: '?' :: '?' :: _ => none
  | '*' :: '?' :: rest => (globCompile rest).map (fun ts => GTok.oneStar :: ts)
  | '*' :: rest => (globCompile rest).map (fun ts => GTok.oneStar :: ts)
  | '?' :: _ => none
  | _c :: '?' :: '?' :: '?' :: _ => none
  | c :: '?' :: '?' :: rest => (globCompile rest).map (fun ts => GTok.optLit c :: ts)
  | c :: '?' :: rest => (globCompile rest).map (fun ts => GTok.optLit c :: ts)
  | c :: rest => (globCompile rest).map (fun ts => GTok.lit c :: ts)

/-- The star loop shared by every star class: try the continuation at each
split point reachable through characters the class accepts. -/
def starLoop (ok : Char → Bool) (k : Str → Bool) : Str → Bool
  | [] => k []
  | c :: s => k (c :: s) || (ok c && starLoop ok k s)

/-- Acceptance of a token list against a whole (anchored) path.  The dotOk
parameter is the character test of the two-star class: jsDot for the
compiled regex, constantly true for the spec-side reading in which two
stars absorb any characters. -/
def gMatch (dotOk : Char → Bool) : List GTok → Str → Bool
  | [], [] => true
  | [], _ :: _ => false
  | GTok.lit _ :: _, [] => false
  | GTok.lit a :: ts, c :: s => a = c && gMatch dotOk ts s
  | GTok.optLit _ :: ts, [] => gMatch dotOk ts []
  | GTok.optLit a :: ts, c :: s =>
      gMatch dotOk ts (c :: s) || (a = c && gMatch dotOk ts s)
  | GTok.oneStar :: ts, s => starLoop (fun c => decide (c ≠ '/')) (gMatch dotOk ts) s
  | GTok.twoStar :: ts, s => starLoop dotOk (gMatch dotOk ts) s

/-- Declarative semantics of a token list: a literal stands for itself, an
optional literal may be present or absent, one star absorbs any characters
except the separator, and two stars absorb any characters the dot class
accepts (with dotOk constantly true: any characters at all, separators
included, as the spec's words describe). -/
def GSem (dotOk : Char → Bool) : List GTok → Str → Prop
  | [], s => s = []
  | GTok.lit a :: ts, s => ∃ s', s = a :: s' ∧ GSem dotOk ts s'
  | GTok.optLit a :: ts, s => GSem dotOk ts s ∨ ∃ s', s = a :: s' ∧ GSem dotOk ts s'
  | GTok.oneStar :: ts, s => ∃ u v, s = u ++ v ∧ (∀ c ∈ u, c ≠ '/') ∧ GSem dotOk ts v
  | GTok.twoStar :: ts, s => ∃ u v, s = u ++ v ∧ (∀ c ∈ u, dotOk c = true) ∧ GSem dotOk ts v

end Glob

/-! ## Filesystem and path model

LocalFileRepository wraps node:fs; we model the disk as an association list
from paths to file contents.  The node:path helpers join, dirname and
relative are modelled on normalized relative paths (the only paths the tool
manipulates): a path is seen as its list of segments, with "." denoting the
empty segment list. -/

/-- The disk: a mapping from paths to file contents, first binding wins. -/
abbrev Fs := List (Str × Str)

/-- fileRepo.read: the content stored at a path, if the file exists. -/
def readFs (fs : Fs) (p : Str) : Option Str :=
  (fs.find? (fun e => e.1 = p)).map (fun e => e.2)

/-- fileRepo.exists. -/
def existsFs (fs : Fs) (p : Str) : Bool :=
  (readFs fs p).isSome

/-- fileRepo.write: overwrite the binding of a path, or create it. -/
def writeFs : Fs → Str → Str → Fs
  | [], p, c => [(p, c)]
  | e :: rest, p, c => if e.1 = p then (p, c) :: rest else e :: writeFs rest p c

/-- Path segments: split on the separator, dropping empty and "." segments
(the normalization node:path performs on the relative paths used here). -/
def segsOf (p : Str) : List Str :=
  (p.splitOn '/').filter (fun s => ¬ (s = [] ∨ s = ['.']))

/-- Render a segment list back to a path; the empty list is ".". -/
def renderPath (segs : List Str) : Str :=
  if segs = [] then ['.'] else List.intercalate ['/'] segs

/-- node:path join on normalized relative paths. -/
def joinPath (a b : Str) : Str :=
  renderPath (segsOf a ++ segsOf b)

/-- node:path dirname on normalized relative paths: parent directory, "."
when there is no parent. -/
def dirnameP (p : Str) : Str :=
  match segsOf p with
  | [] => ['.']
  | segs => renderPath segs.dropLast

/-- Longest common segment run removal, used by the relative-path model. -/
def dropCommonSegs : List Str → List Str → List Str × List Str
  | a :: as, b :: bs =>
    if a = b then dropCommonSegs as bs else (a :: as, b :: bs)
  | as, bs => (as, bs)

/-- node:path relative on normalized relative paths (".." per remaining
source segment, then the leftover target segments; "" when equal). -/
def relativeP (src dst : Str) : Str :=
  let (fr, tr) := dropCommonSegs (segsOf src) (segsOf dst)
  List.intercalate ['/'] (List.replicate fr.length ['.', '.'] ++ tr)

/-! ## Cargo manifest extraction

The rust updater reads manifests with smol-toml and only inspects a handful
of fields.  parseCargoToml extracts exactly those fields from the standard
single-line-per-key Cargo.toml layout (sections in brackets, string values
in double quotes, single-line member arrays); on that subset it agrees with
the library parser, and it is total like the rest of the embedding. -/

structure CargoToml where
  packageName : Option Str := none
  packageVersion : Option Str := none
  /-- the inheritance marker: version = \x7b workspace = true \x7d. -/
  packageVersionWorkspace : Bool := false
  hasWorkspace : Bool := false
  workspaceMembers : List Str := []
  workspacePackageVersion : Option Str := none
  deriving Repr, DecidableEq

/-- Strip surrounding whitespace. -/
def trimStr (s : Str) : Str :=
  ((s.dropWhile isWsChar).reverse.dropWhile isWsChar).reverse

/-- A TOML basic string literal, possibly followed by trailing text. -/
def parseStringLit (s : Str) : Option Str :=
  match trimStr s with
  | '"' :: rest =>
    let v := rest.takeWhile (fun c => c ≠ '"')
    match rest.drop v.length with
    | '"' :: _ => some v
    | _ => none
  | _ => none

/-- All double-quoted substrings of a line, used for single-line member
arrays. -/
def quotedStringsAux : Str → Option Str → List Str
  | [], _ => []
  | c :: rest, none =>
    if c = '"' then quotedStringsAux rest (some []) else quotedStringsAux rest none
  | c :: rest, some acc =>
    if c = '"' then acc.reverse :: quotedStringsAux rest none
    else quotedStringsAux rest (some (c :: acc))

/-- A single-line TOML array of strings. -/
def parseStringArray (s : Str) : Option (List Str) :=
  match trimStr s with
  | '[' :: _ => some (quotedStringsAux (trimStr s) none)
  | _ => none

/-- Index of the first occurrence of a pattern as a contiguous substring. -/
def findSubIdx : Str → Str → Option Nat
  | [], pat => if pat.isPrefixOf [] then some 0 else none
  | c :: rest, pat =>
    if pat.isPrefixOf (c :: rest) then some 0
    else (findSubIdx rest pat).map (fun i => i + 1)

/-- Detects the inline-table inheritance marker value
\x7b workspace = true \x7d for the package version key. -/
def isWorkspaceTrueTable (s : Str) : Bool :=
  match trimStr s with
  | '{' :: _ =>
    (findSubIdx (trimStr s) ("workspace".data)).isSome &&
      (findSubIdx (trimStr s) ("true".data)).isSome
  | _ => false

/-- Section-header name of a trimmed line, accepting [name] and [[name]]. -/
def headerName (t : Str) : Option Str :=
  match t with
  | '[' :: '[' :: r => some (r.takeWhile (fun c => c ≠ ']'))
  | '[' :: r => some (r.takeWhile (fun c => c ≠ ']'))
  | _ => none

/-- Split a key-value line at the first equals sign. -/
def splitAtFirstEq (t : Str) : Option (Str × Str) :=
  let k := t.takeWhile (fun c => c ≠ '=')
  match t.drop k.length with
  | '=' :: v => some (trimStr k, v)
  | _ => none

/-- Record one key-value line into the accumulated manifest fields,
depending on the current section. -/
def recordKey (sect : Str) (t : Str) (acc : CargoToml) : CargoToml :=
  match splitAtFirstEq t with
  | none => acc
  | some (key, value) =>
    if sect = "package".data then
      if key = "name".data then
        match parseStringLit value with
        | some v => { acc with packageName := some v }
        | none => acc
      else if key = "version".data then
        match parseStringLit value with
        | some v => { acc with packageVersion := some v }
        | none =>
          if isWorkspaceTrueTable value then
            { acc with packageVersionWorkspace := true }
          else acc
      else if key = "version.workspace".data ∧ trimStr value = "true".data then
        { acc with packageVersionWorkspace := true }
      else acc
    else if sect = "workspace".data then
      if key = "members".data then
        match parseStringArray value with
        | some l => { acc with workspaceMembers := l }
        | none => acc
      else acc
    else if sect = "workspace.package".data then
      if key = "version".data then
        match parseStringLit value with
        | some v => { acc with workspacePackageVersion := some v }
        | none => acc
      else acc
    else acc

/-- Line-by-line manifest scan carrying the current section name. -/
def parseCargoLines : List Str → Str → CargoToml → CargoToml
  | [], _, acc => acc
  | line :: rest, sect, acc =>
    let t := trimStr line
    match headerName t with
    | some name =>
      let acc' :=
        if name = "workspace".data ∨ ("workspace.".data).isPrefixOf name then
          { acc with hasWorkspace := true }
        else acc
      parseCargoLines rest name acc'
    | none => parseCargoLines rest sect (recordKey sect t acc)

/-- The fields of a Cargo manifest that RustPackageUpdater reads through
TOML.parse. -/
def parseCargoToml (content : Str) : CargoToml :=
  parseCargoLines (content.splitOn '\n') [] {}

/-! ## Bounded-region text patching

Faithful models of RustPackageUpdater.getSectionRange and
updateVersionInSection: the section window runs from the end of the matched
header line to the newline preceding the next top-level header (or end of
file), and only the first version assignment inside the window is
rewritten. -/

/-- A located section window; start and end are offsets into the content
(start / end in CargoSectionRange). -/
structure SectionRange where
  startPos : Nat
  endPos : Nat
  body : Str
  deriving Repr, DecidableEq

/-- Index of the last newline of a string, if any. -/
def lastNewlineIdxAux : Str → Nat → Option Nat → Option Nat
  | [], _, best => best
  | c :: rest, i, best =>
    lastNewlineIdxAux rest (i + 1) (if c = '\n' then some i else best)

def lastNewlineIdx (r : Str) : Option Nat :=
  lastNewlineIdxAux r 0 none

/-- Length matched by the greedy whitespace run before a multiline
end-of-line anchor, as in the header regex: the longest whitespace run whose
end sits at the end of the content or just before a newline. -/
def wsDollarLenM (s : Str) : Option Nat :=
  let run := s.takeWhile isWsChar
  if run.length = s.length then some s.length
  else lastNewlineIdx run

/-- Total length matched by the anchored header pattern at this position,
if it matches here. -/
def headerMatchLenAt (target s : Str) : Option Nat :=
  if target.isPrefixOf s then
    match wsDollarLenM (s.drop target.length) with
    | some k => some (target.length + k)
    | none => none
  else none

/-- Scan for the first line start where the header pattern matches,
returning its offset and match length. -/
def findHeaderAux (target : Str) : Str → Nat → Bool → Option (Nat × Nat)
  | [], pos, atStart =>
    match (if atStart then headerMatchLenAt target [] else none) with
    | some len => some (pos, len)
    | none => none
  | c :: rest, pos, atStart =>
    match (if atStart then headerMatchLenAt target (c :: rest) else none) with
    | some len => some (pos, len)
    | none => findHeaderAux target rest (pos + 1) (decide (c = '\n'))

/-- The tail check of the next-header pattern: optional whitespace then a
line break or the end of the content. -/
def sectionEndTail : Str → Bool
  | [] => true
  | '\n' :: _ => true
  | c :: rest => isWsChar c && sectionEndTail rest

/-- The body-and-closing-bracket part of the next-header pattern. -/
def bodyClose (s : Str) : Bool :=
  let body := s.takeWhile (fun c => ¬ (c = ']' ∨ c = '\n'))
  (!body.isEmpty) &&
    (match s.drop body.length with
     | ']' :: r =>
       sectionEndTail (match r with | ']' :: r2 => r2 | _ => r)
     | _ => false)

/-- Whether a top-level section header starts at this position (the part of
the next-header pattern after its leading newline). -/
def nextHeaderAt (s : Str) : Bool :=
  match s with
  | '[' :: s1 =>
    bodyClose s1 || (match s1 with | '[' :: s2 => bodyClose s2 | _ => false)
  | _ => false

/-- Offset of the newline opening the next top-level section header. -/
def findNextHeaderIdx : Str → Option Nat
  | [] => none
  | c :: rest =>
    if c = '\n' && nextHeaderAt rest then some 0
    else (findNextHeaderIdx rest).map (fun j => j + 1)

/-- RustPackageUpdater.getSectionRange: locate the window of a top-level
section, from the end of its header line to the next header or the end of
the file. -/
def getSectionRange (content : Str) (sectionHeader : Str) : Option SectionRange :=
  let target := '[' :: sectionHeader ++ [']']
  match findHeaderAux target content 0 true with
  | none => none
  | some (i, len) =>
    let s := i + len
    let e :=
      match findNextHeaderIdx (content.drop s) with
      | none => content.length
      | some j => s + j
    some ⟨s, e, (content.drop s).take (e - s)⟩

/-- Parse one line against the anchored version-assignment pattern,
returning the part before the value (whitespace, the key, the equals sign
and the opening quote), the value and the rest of the line. -/
def versionLineParse (line : Str) : Option (Str × Str × Str) :=
  let w1 := line.takeWhile isWsChar
  let r1 := line.drop w1.length
  if ("version".data).isPrefixOf r1 then
    let r2 := r1.drop 7
    let w2 := r2.takeWhile isWsChar
    match r2.drop w2.length with
    | '=' :: r4 =>
      let w3 := r4.takeWhile isWsChar
      match r4.drop w3.length with
      | '"' :: r6 =>
        let v := r6.takeWhile (fun c => c ≠ '"')
        if v.isEmpty then none
        else
          match r6.drop v.length with
          | '"' :: rest =>
            some (w1 ++ "version".data ++ w2 ++ ['='] ++ w3 ++ ['"'], v, rest)
          | _ => none
      | _ => none
    | _ => none
  else none

/-- Replace the value of the first version assignment among the lines. -/
def patchVersionLines : List Str → Str → Option (List Str)
  | [], _ => none
  | l :: rest, newVersion =>
    match versionLineParse l with
    | some (pfx, _, after) =>
      some ((pfx ++ newVersion ++ ['"'] ++ after) :: rest)
    | none =>
      (patchVersionLines rest newVersion).map (fun ls => l :: ls)

/-- RustPackageUpdater.updateVersionInSection: patch the first version
assignment inside the section window, leaving everything else byte-for-byte
unchanged; reports whether the content changed. -/
def updateVersionInSection (content sectionHeader newVersion : Str) : Str × Bool :=
  match getSectionRange content sectionHeader with
  | none => (content, false)
  | some rg =>
    match patchVersionLines (rg.body.splitOn '\n') newVersion with
    | none => (content, false)
    | some newLines =>
      let updatedBody := List.intercalate ['\n'] newLines
      if updatedBody = rg.body then (content, false)
      else (content.take rg.startPos ++ updatedBody ++ content.drop rg.endPos, true)

/-! ## Shared package types -/

/-- The ecosystem tag of a descriptor (the type field of PackageConfig). -/
inductive PackageType where
  | npm
  | go
  | cargo
  deriving DecidableEq, Repr

/-- One entry of the input manifest (PackageConfig in types/package.ts);
ptype is the type field, version the target version. -/
structure PackageConfig where
  path : Str
  name : Str
  ptype : PackageType
  version : Str
  create_tag : Option Bool := none
  relativePath : Option Str := none
  deriving DecidableEq, Repr

/-- UpdateResult (types): either success carrying the versions and the
additional files to stage, or failure carrying a message.  Error texts are
abbreviated; no claim depends on message wording. -/
inductive UpdateResult where
  | success (oldVersion : Option Str) (newVersion : Str)
      (additionalFiles : Option (List Str))
  | failure (error : Str)
  deriving DecidableEq, Repr

def UpdateResult.isSuccess : UpdateResult → Bool
  | .success _ _ _ => true
  | .failure _ => false

/-- Insertion into the Set-of-strings model (insertion order preserved,
duplicates ignored), as used for updatedFiles and memberNames. -/
def addIfAbsent (l : List Str) (x : Str) : List Str :=
  if l.contains x then l else l ++ [x]

/-- Replace the first occurrence of a substring (String.prototype.replace
with a plain-string pattern). -/
def replaceFirstSub (s pat repl : Str) : Str :=
  match findSubIdx s pat with
  | none => s
  | some i => s.take i ++ repl ++ s.drop (i + pat.length)

namespace Rust

open Glob

/-- RustPackageUpdater.matchesWorkspaceMember: a member pattern matches the
package's root-relative path when it is literally equal, or when it contains
a star and its compiled glob pattern accepts the whole path.  Compiling an
invalid pattern (a stray question-mark quantifier) makes the RegExp
constructor throw; the error result models that exception, which this
function does not catch. -/
def matchesWorkspaceMember : List Str → Str → Except Str Bool
  | [], _ => .ok false
  | member :: rest, relPath =>
    if member = relPath then .ok true
    else if member.contains '*' then
      match globCompile member with
      | none => .error ("Invalid regular expression".data)
      | some toks =>
        if gMatch jsDot toks relPath then .ok true
        else matchesWorkspaceMember rest relPath
    else matchesWorkspaceMember rest relPath

def cargoFileName : Str := "Cargo.toml".data

/-- RustPackageUpdater.getPackageFilePath. -/
def getPackageFilePath (packagePath : Str) : Str :=
  joinPath packagePath cargoFileName

/-- The upward directory walk of findWorkspaceRoot; the fuel argument only
bounds the walk, which shortens the directory at every step, so any fuel of
at least one plus the number of segments reproduces the source loop. -/
def findWorkspaceRootAux (fs : Fs) : Nat → Str → Option Str
  | 0, _ => none
  | fuel + 1, currentDir =>
    let hit :=
      match readFs fs (getPackageFilePath currentDir) with
      | some content => (parseCargoToml content).hasWorkspace
      | none => false
    if hit then some currentDir
    else if currentDir = ['.'] ∨ currentDir = [] then none
    else
      let parent := dirnameP currentDir
      if parent = currentDir then none
      else findWorkspaceRootAux fs fuel parent

/-- RustPackageUpdater.findWorkspaceRoot: walk upward from the package
directory to the first manifest declaring a workspace table. -/
def findWorkspaceRoot (fs : Fs) (packagePath : Str) : Option Str :=
  let startDir := if packagePath = [] then ['.'] else packagePath
  findWorkspaceRootAux fs ((segsOf startDir).length + 1) startDir

/-- RustPackageUpdater.readWorkspaceVersion. -/
def readWorkspaceVersion (fs : Fs) (workspaceRoot : Str) : Except Str Str :=
  match readFs fs (getPackageFilePath workspaceRoot) with
  | none => .error ("ENOENT".data)
  | some content =>
    match (parseCargoToml content).workspacePackageVersion with
    | some v => .ok v
    | none => .error ("no workspace package version".data)

/-- RustPackageUpdater.readVersion: the package's own version string, else
the shared version declared in the same file, else - on the inheritance
marker - the version of the enclosing workspace root. -/
def readVersion (fs : Fs) (packagePath : Str) : Except Str Str :=
  match readFs fs (getPackageFilePath packagePath) with
  | none => .error ("ENOENT".data)
  | some content =>
    let cargo := parseCargoToml content
    match cargo.packageVersion with
    | some v => .ok v
    | none =>
      match cargo.workspacePackageVersion with
      | some v => .ok v
      | none =>
        if cargo.packageVersionWorkspace then
          match findWorkspaceRoot fs packagePath with
          | none => .error ("no workspace root".data)
          | some root => readWorkspaceVersion fs root
        else .error ("no version field".data)

def hasWorkspacePackageVersion (cargo : CargoToml) : Bool :=
  cargo.workspacePackageVersion.isSome

/-- RustPackageUpdater.updateWorkspacePackage. -/
def updateWorkspacePackage (content newVersion : Str) : Str × Bool :=
  updateVersionInSection content ("workspace.package".data) newVersion

/-- RustPackageUpdater.updatePackageVersion. -/
def updatePackageVersion (content newVersion : Str) : Str × Bool :=
  updateVersionInSection content ("package".data) newVersion

/-- RustPackageUpdater.getRelativeWorkspacePath. -/
def getRelativeWorkspacePath (workspaceRoot packagePath : Str) : Str :=
  if workspaceRoot = packagePath then ['.']
  else
    let rel := relativeP workspaceRoot packagePath
    if rel = [] then ['.'] else rel

/-- RustPackageUpdater.resolveWorkspaceRoot: the package's own manifest may
declare the workspace, else the upward search applies, and a non-empty
member list must match the package's root-relative path. -/
def resolveWorkspaceRoot (fs : Fs) (packagePath : Str) (cargo : CargoToml) :
    Except Str (Option Str) :=
  if cargo.hasWorkspace then .ok (some packagePath)
  else
    match findWorkspaceRoot fs packagePath with
    | none => .ok none
    | some workspaceRoot =>
      if workspaceRoot = packagePath then .ok (some workspaceRoot)
      else
        match readFs fs (getPackageFilePath workspaceRoot) with
        | none => .error ("ENOENT".data)
        | some wcontent =>
          let members := (parseCargoToml wcontent).workspaceMembers
          if members.isEmpty then .ok (some workspaceRoot)
          else
            let rel := getRelativeWorkspacePath workspaceRoot packagePath
            match matchesWorkspaceMember members rel with
            | .error e => .error e
            | .ok true => .ok (some workspaceRoot)
            | .ok false => .ok none

/-- The value part of a dependency entry line: its key (bare or quoted) and
the text after the equals sign, per the entry pattern of
updateWorkspaceDependencies. -/
def parseDepEntry (line : Str) : Option (Str × Str) :=
  let w := line.takeWhile isWsChar
  let r := line.drop w.length
  let nameRes : Option (Str × Str) :=
    match r with
    | '"' :: r1 =>
      let nm := r1.takeWhile (fun c => c ≠ '"')
      if nm.isEmpty then none
      else
        match r1.drop nm.length with
        | '"' :: r2 => some (nm, r2)
        | _ => none
    | _ =>
      let nm := r.takeWhile isBareKeyChar
      if nm.isEmpty then none else some (nm, r.drop nm.length)
  match nameRes with
  | none => none
  | some (nm, r2) =>
    let w2 := r2.takeWhile isWsChar
    match r2.drop w2.length with
    | '=' :: r3 =>
      let value := r3.drop (r3.takeWhile isWsChar).length
      if value.isEmpty then none else some (nm, value)
    | _ => none

/-- The bare-string form of a dependency value: a quoted version followed by
arbitrary trailing text. -/
def stringValueParse (value : Str) : Option (Str × Str) :=
  match value with
  | '"' :: r =>
    let inner := r.takeWhile (fun c => c ≠ '"')
    if inner.isEmpty then none
    else
      match r.drop inner.length with
      | '"' :: after => some (inner, after)
      | _ => none
  | _ => none

/-- The inline-table version pattern at one position: the matched text up to
its opening quote, and the quoted version value. -/
def versionAssignAt (s : Str) : Option (Str × Str) :=
  if ("version".data).isPrefixOf s then
    let r1 := s.drop 7
    let w1 := r1.takeWhile isWsChar
    match r1.drop w1.length with
    | '=' :: r2 =>
      let w2 := r2.takeWhile isWsChar
      match r2.drop w2.length with
      | '"' :: r3 =>
        let v := r3.takeWhile (fun c => c ≠ '"')
        if v.isEmpty then none
        else
          match r3.drop v.length with
          | '"' :: _ => some ("version".data ++ w1 ++ ['='] ++ w2 ++ ['"'], v)
          | _ => none
      | _ => none
    | _ => none
  else none

/-- Leftmost occurrence of the inline-table version pattern. -/
def findVersionAssign : Str → Option (Str × Str)
  | [] => none
  | c :: rest =>
    match versionAssignAt (c :: rest) with
    | some r => some r
    | none => findVersionAssign rest

/-- The per-line rewrite of updateWorkspaceDependencies: entries whose key
names a collected workspace member get their version rewritten, in bare
string form or inside an inline table; every other line is untouched. -/
def mapDepLine (names : List Str) (newVersion : Str) (line : Str) : Str :=
  match parseDepEntry line with
  | none => line
  | some (depName, value) =>
    if !(names.contains depName) then line
    else
      match stringValueParse value with
      | some (inner, after) =>
        replaceFirstSub line ('"' :: inner ++ '"' :: after)
          ('"' :: newVersion ++ '"' :: after)
      | none =>
        match findVersionAssign value with
        | none => line
        | some (g1, v) =>
          let matched := g1 ++ v ++ ['"']
          let updatedValue := replaceFirstSub value matched (g1 ++ newVersion ++ ['"'])
          if updatedValue = value then line
          else replaceFirstSub line value updatedValue

/-- RustPackageUpdater.updateWorkspaceDependencies: rewrite, inside the
workspace dependency section window only, the entries of the collected
member names. -/
def updateWorkspaceDependencies (content : Str) (names : List Str)
    (newVersion : Str) : Str × Bool :=
  match getSectionRange content ("workspace.dependencies".data) with
  | none => (content, false)
  | some rg =>
    let updatedLines := (rg.body.splitOn '\n').map (mapDepLine names newVersion)
    let updatedBody := List.intercalate ['\n'] updatedLines
    if updatedBody = rg.body then (content, false)
    else (content.take rg.startPos ++ updatedBody ++ content.drop rg.endPos, true)

/-- Collection of a present member's package name into the name set. -/
def addMemberName (memberNames : List Str) (cargo : CargoToml) : List Str :=
  match cargo.packageName with
  | some nm => addIfAbsent memberNames nm
  | none => memberNames

/-- The member loop of updateWorkspaceMembers: a member whose manifest is
absent is skipped, names of present members are collected, and present
members with an explicit version different from the target are patched (and
written unless in dry run). -/
def updateWorkspaceMembersAux (workspaceRoot newVersion : Str) (dryRun : Bool) :
    List Str → Fs → List Str → List Str → List Str × List Str × Fs
  | [], fs, updatedFiles, memberNames => (updatedFiles, memberNames, fs)
  | member :: rest, fs, updatedFiles, memberNames =>
    match readFs fs (getPackageFilePath (joinPath workspaceRoot member)) with
    | none =>
      updateWorkspaceMembersAux workspaceRoot newVersion dryRun rest fs
        updatedFiles memberNames
    | some memberContent =>
      match (parseCargoToml memberContent).packageVersion with
      | none =>
        updateWorkspaceMembersAux workspaceRoot newVersion dryRun rest fs
          updatedFiles (addMemberName memberNames (parseCargoToml memberContent))
      | some v =>
        if v = newVersion then
          updateWorkspaceMembersAux workspaceRoot newVersion dryRun rest fs
            updatedFiles (addMemberName memberNames (parseCargoToml memberContent))
        else if (updatePackageVersion memberContent newVersion).2 then
          updateWorkspaceMembersAux workspaceRoot newVersion dryRun rest
            (if dryRun then fs
             else writeFs fs (getPackageFilePath (joinPath workspaceRoot member))
               (updatePackageVersion memberContent newVersion).1)
            (updatedFiles ++ [getPackageFilePath (joinPath workspaceRoot member)])
            (addMemberName memberNames (parseCargoToml memberContent))
        else
          updateWorkspaceMembersAux workspaceRoot newVersion dryRun rest fs
            updatedFiles (addMemberName memberNames (parseCargoToml memberContent))

/-- RustPackageUpdater.updateWorkspaceMembers. -/
def updateWorkspaceMembers (fs : Fs) (workspaceRoot : Str)
    (workspaceCargo : CargoToml) (newVersion : Str) (dryRun : Bool) :
    List Str × List Str × Fs :=
  updateWorkspaceMembersAux workspaceRoot newVersion dryRun
    workspaceCargo.workspaceMembers fs [] []

/-- RustPackageUpdater.updateVersion, with the filesystem threaded
explicitly.  A thrown error surfaces as a failure result; mutations already
performed (member writes) persist, as on disk. -/
def updateVersion (fs : Fs) (packagePath newVersion : Str) (dryRun : Bool) :
    UpdateResult × Fs :=
  let filePath := getPackageFilePath packagePath
  match readFs fs filePath with
  | none => (.failure ("ENOENT".data), fs)
  | some content =>
    let cargo := parseCargoToml content
    match readVersion fs packagePath with
    | .error e => (.failure e, fs)
    | .ok oldVersion =>
      if oldVersion = newVersion then
        (.success (some oldVersion) newVersion none, fs)
      else
        match resolveWorkspaceRoot fs packagePath cargo with
        | .error e => (.failure e, fs)
        | .ok workspaceRootOpt =>
          let wsRead : Except Str (Option (Str × Str × CargoToml)) :=
            match workspaceRootOpt with
            | none => .ok none
            | some root =>
              if getPackageFilePath root = filePath then
                .ok (some (root, content, cargo))
              else
                match readFs fs (getPackageFilePath root) with
                | none => .error ("ENOENT".data)
                | some wcontent => .ok (some (root, wcontent, parseCargoToml wcontent))
          match wsRead with
          | .error e => (.failure e, fs)
          | .ok none =>
            let pu := updatePackageVersion content newVersion
            if pu.2 then
              let fs1 :=
                if ¬ dryRun then
                  (if pu.1 ≠ content then writeFs fs filePath pu.1 else fs)
                else fs
              (.success (some oldVersion) newVersion none, fs1)
            else (.failure ("version field not found".data), fs)
          | .ok (some (root, wcontent0, wcargo)) =>
            if hasWorkspacePackageVersion wcargo then
              let wp := updateWorkspacePackage wcontent0 newVersion
              if ¬ wp.2 then
                (.failure ("failed to update workspace version".data), fs)
              else
                let rootFile := getPackageFilePath root
                let updatedFiles1 := [rootFile]
                let wcontent1 := wp.1
                let mres := updateWorkspaceMembers fs root wcargo newVersion dryRun
                let memberFiles := mres.1
                let memberNames := mres.2.1
                let fs1 := mres.2.2
                let updatedFiles2 := memberFiles.foldl addIfAbsent updatedFiles1
                let du := updateWorkspaceDependencies wcontent1 memberNames newVersion
                let wcontent2 := if du.2 then du.1 else wcontent1
                let updatedFiles3 :=
                  if du.2 then addIfAbsent updatedFiles2 rootFile else updatedFiles2
                let updatedContent1 := if root = packagePath then wcontent2 else content
                match cargo.packageVersion with
                | some _ =>
                  let baseContent := if root = packagePath then wcontent2 else updatedContent1
                  let pu := updatePackageVersion baseContent newVersion
                  if pu.2 then
                    let wcontent3 := if root = packagePath then pu.1 else wcontent2
                    let updatedContent2 := pu.1
                    let updatedFiles4 := addIfAbsent updatedFiles3 filePath
                    let fs2 :=
                      if ¬ dryRun ∧ ¬ updatedFiles4.isEmpty then
                        let fsA :=
                          if updatedContent2 ≠ content then
                            writeFs fs1 filePath updatedContent2
                          else fs1
                        if wcontent3 ≠ wcontent0 then writeFs fsA rootFile wcontent3
                        else fsA
                      else fs1
                    let addl := updatedFiles4.filter (fun f => f ≠ filePath)
                    (.success (some oldVersion) newVersion
                      (if addl.isEmpty then none else some addl), fs2)
                  else (.failure ("version field not found".data), fs1)
                | none =>
                  let fs2 :=
                    if ¬ dryRun ∧ ¬ updatedFiles3.isEmpty then
                      let fsA :=
                        if updatedContent1 ≠ content then
                          writeFs fs1 filePath updatedContent1
                        else fs1
                      if wcontent2 ≠ wcontent0 then writeFs fsA rootFile wcontent2
                      else fsA
                    else fs1
                  let addl := updatedFiles3.filter (fun f => f ≠ filePath)
                  (.success (some oldVersion) newVersion
                    (if addl.isEmpty then none else some addl), fs2)
            else
              let pu := updatePackageVersion content newVersion
              if pu.2 then
                let fs1 :=
                  if ¬ dryRun then
                    (if pu.1 ≠ content then writeFs fs filePath pu.1 else fs)
                  else fs
                (.success (some oldVersion) newVersion none, fs1)
              else (.failure ("version field not found".data), fs)

/-- RustPackageUpdater.shouldCreateTag: the explicit create_tag flag wins,
else tags default on for cargo packages. -/
def shouldCreateTag (pkg : PackageConfig) : Bool :=
  match pkg.ptype, pkg.create_tag with
  | .cargo, some b => b
  | _, _ => true

/-- RustPackageUpdater.getTagName. -/
def getTagName (pkg : PackageConfig) : Str :=
  'v' :: pkg.version

end Rust

namespace Npm

/-- The JSON library boundary used by NpmPackageUpdater: parsing, reading
and setting the version field, and the two-space stringification.  It is a
platform collaborator, so it is a parameter of the embedding. -/
structure JsonLib (J : Type) where
  parse : Str → Except Str J
  getVersion : J → Option Str
  setVersion : J → Str → J
  stringify : J → Str

def packageFileName : Str := "package.json".data

/-- NpmPackageUpdater.getPackageFilePath. -/
def getPackageFilePath (packagePath : Str) : Str :=
  joinPath packagePath packageFileName

/-- NpmPackageUpdater.readVersion: parse and require a truthy version. -/
def readVersion {J : Type} (lib : JsonLib J) (fs : Fs) (packagePath : Str) :
    Except Str Str :=
  match readFs fs (getPackageFilePath packagePath) with
  | none => .error ("ENOENT".data)
  | some content =>
    match lib.parse content with
    | .error e => .error e
    | .ok pkg =>
      match lib.getVersion pkg with
      | none => .error ("no version field".data)
      | some v => if v.isEmpty then .error ("no version field".data) else .ok v

/-- NpmPackageUpdater.updateVersion: outside dry run, rewrite package.json
and run npm install (whose outcome is the install oracle); the lockfile path
is always reported as an additional file. -/
def updateVersion {J : Type} (lib : JsonLib J) (installRes : Str → Except Str Unit)
    (fs : Fs) (packagePath newVersion : Str) (dryRun : Bool) :
    UpdateResult × Fs :=
  let filePath := getPackageFilePath packagePath
  match readFs fs filePath with
  | none => (.failure ("ENOENT".data), fs)
  | some content =>
    match lib.parse content with
    | .error e => (.failure e, fs)
    | .ok pkg =>
      let oldVersion := lib.getVersion pkg
      let lockFilePath := joinPath packagePath ("package-lock.json".data)
      if dryRun then
        (.success oldVersion newVersion (some [lockFilePath]), fs)
      else
        let updatedContent := lib.stringify (lib.setVersion pkg newVersion) ++ ['\n']
        let fs1 := writeFs fs filePath updatedContent
        match installRes packagePath with
        | .error e => (.failure e, fs1)
        | .ok _ => (.success oldVersion newVersion (some [lockFilePath]), fs1)

/-- NpmPackageUpdater.shouldCreateTag: the explicit create_tag flag wins,
else tags default on for npm packages. -/
def shouldCreateTag (pkg : PackageConfig) : Bool :=
  match pkg.ptype, pkg.create_tag with
  | .npm, some b => b
  | _, _ => true

/-- NpmPackageUpdater.getTagName. -/
def getTagName (pkg : PackageConfig) : Str :=
  'v' :: pkg.version

end Npm

namespace Go

def goFileName : Str := "go.mod".data

/-- GoPackageUpdater.getPackageFilePath. -/
def getPackageFilePath (packagePath : Str) : Str :=
  joinPath packagePath goFileName

def isDigitCh (c : Char) : Bool := '0' ≤ c ∧ c ≤ '9'

/-- The tail of the module-directive pattern after its first mandatory
whitespace character: more whitespace may follow before the nonempty
rest-of-line. -/
def moduleRestOk : Str → Bool
  | [] => false
  | c :: rest => decide (c ≠ '\n') || (isWsChar c && moduleRestOk rest)

/-- Whether the anchored module-directive pattern matches at a position. -/
def moduleLineAt (s : Str) : Bool :=
  ("module".data).isPrefixOf s &&
    (match s.drop 6 with
     | [] => false
     | c :: rest => isWsChar c && moduleRestOk rest)

def hasModuleLineAux : Str → Bool → Bool
  | [], _ => false
  | c :: rest, atStart =>
    (atStart && moduleLineAt (c :: rest)) || hasModuleLineAux rest (decide (c = '\n'))

/-- Whether go.mod contains a module directive (the multiline module
pattern of GoPackageUpdater.readVersion). -/
def hasModuleLine (content : Str) : Bool :=
  hasModuleLineAux content true

/-- GoPackageUpdater.getTagPrefix (source name; renamed for lint reasons):
"v" at the repository root, "path/v" for a nested module. -/
def getTagPre (packagePath : Str) : Str :=
  if packagePath = ['.'] ∨ packagePath = [] then ['v']
  else packagePath ++ '/' :: ['v']

/-- Whether the tag-version pattern v digits.digits.digits then anything up
to the end matches at this position. -/
def vSemverAt (s : Str) : Bool :=
  match s with
  | 'v' :: r =>
    let d1 := r.takeWhile isDigitCh
    (!d1.isEmpty) &&
      (match r.drop d1.length with
       | '.' :: r2 =>
         let d2 := r2.takeWhile isDigitCh
         (!d2.isEmpty) &&
           (match r2.drop d2.length with
            | '.' :: r3 =>
              let d3 := r3.takeWhile isDigitCh
              (!d3.isEmpty) && (r3.drop d3.length).all (fun c => c ≠ '\n')
            | _ => false)
       | _ => false)
  | _ => false

/-- Extract the version part of a tag: everything after the leftmost match
of the tag-version pattern, if any. -/
def extractTagVersion : Str → Option Str
  | [] => none
  | c :: rest =>
    if vSemverAt (c :: rest) then some rest else extractTagVersion rest

def natFromDigits (ds : Str) : Nat :=
  ds.foldl (fun acc c => acc * 10 + (c.toNat - ('0').toNat)) 0

/-- JavaScript parseInt on a version segment: optional whitespace and sign,
then leading digits; none models NaN. -/
def jsParseIntLead (s : Str) : Option Int :=
  let t := s.dropWhile isWsChar
  match t with
  | '-' :: r =>
    let ds := r.takeWhile isDigitCh
    if ds.isEmpty then none else some (-(natFromDigits ds : Int))
  | '+' :: r =>
    let ds := r.takeWhile isDigitCh
    if ds.isEmpty then none else some ((natFromDigits ds : Int))
  | _ =>
    let ds := t.takeWhile isDigitCh
    if ds.isEmpty then none else some ((natFromDigits ds : Int))

/-- One comparator step value: the parsed i-th dot-separated segment, zero
when missing or not a number. -/
def segVal (parts : List Str) (i : Nat) : Int :=
  match parts.get? i with
  | none => 0
  | some seg => (jsParseIntLead seg).getD 0

/-- The descending version comparator of GoPackageUpdater.readVersion,
walking the dot-separated segments. -/
def versionCmpAux (aParts bParts : List Str) : Nat → Nat → Int
  | _, 0 => 0
  | i, fuel + 1 =>
    let aVal := segVal aParts i
    let bVal := segVal bParts i
    if aVal ≠ bVal then bVal - aVal else versionCmpAux aParts bParts (i + 1) fuel

def versionCmp (a b : Str) : Int :=
  let aParts := a.splitOn '.'
  let bParts := b.splitOn '.'
  versionCmpAux aParts bParts 0 (max aParts.length bParts.length)

/-- Stable insertion used to model Array.prototype.sort with the version
comparator (the engine's sort order on ties is unspecified; any
comparator-sorted order satisfies the claims). -/
def insertSorted (x : Str) : List Str → List Str
  | [] => [x]
  | y :: ys => if versionCmp y x ≤ 0 then y :: insertSorted x ys else x :: y :: ys

def sortVersions (l : List Str) : List Str :=
  l.foldr insertSorted []

/-- GoPackageUpdater.readVersion: the version comes from git tags.  The git
oracle supplies the tag list and the repository root (as a path relative to
the working directory), or the thrown git error; on git failure the default
version is returned after a warning. -/
def readVersion (git : Except Str (List Str × Str)) (fs : Fs)
    (packagePath : Str) : Except Str Str :=
  match readFs fs (getPackageFilePath packagePath) with
  | none => .error ("ENOENT".data)
  | some content =>
    if ¬ hasModuleLine content then .error ("no module directive".data)
    else
      match git with
      | .error _ => .ok ("0.0.0".data)
      | .ok (tags, gitRoot) =>
        let rel := relativeP gitRoot packagePath
        let tagPre := getTagPre rel
        let packageTags :=
          sortVersions ((tags.filter (fun t => tagPre.isPrefixOf t)).filterMap
            extractTagVersion)
        .ok (match packageTags with
          | [] => "0.0.0".data
          | v :: _ => v)

/-- GoPackageUpdater.updateVersion: go.mod is never modified, the version
being managed through git tags; the function only reads. -/
def updateVersion (git : Except Str (List Str × Str)) (fs : Fs)
    (packagePath newVersion : Str) (_dryRun : Bool) : UpdateResult × Fs :=
  match readFs fs (getPackageFilePath packagePath) with
  | none => (.failure ("ENOENT".data), fs)
  | some _ =>
    match readVersion git fs packagePath with
    | .error e => (.failure e, fs)
    | .ok oldVersion => (.success (some oldVersion) newVersion none, fs)

/-- GoPackageUpdater.shouldCreateTag. -/
def shouldCreateTag (_pkg : PackageConfig) : Bool :=
  true

/-- GoPackageUpdater.getTagName. -/
def getTagName (pkg : PackageConfig) : Str :=
  let pkgPath := match pkg.relativePath with
    | some rp => if rp.isEmpty then pkg.path else rp
    | none => pkg.path
  if pkgPath = ['.'] ∨ pkgPath = [] then 'v' :: pkg.version
  else pkgPath ++ '/' :: 'v' :: pkg.version

end Go

namespace Gitops

/-- One git invocation, recorded so that frame claims can state that no git
operation was performed. -/
inductive GitOp where
  | add (file : Str)
  | commit (message : Str)
  | fetchTags
  | tagList
  | addTag (name : Str)
  deriving DecidableEq, Repr

/-- GitOperationResult (types). -/
structure GitOperationResult where
  success : Bool
  commitHash : Option Str := none
  tagName : Option Str := none
  error : Option Str := none
  deriving DecidableEq, Repr

/-- Outcomes of the underlying git binary, an external collaborator. -/
structure GitEnv where
  addRes : Str → Except Str Unit
  commitRes : Str → Except Str Str
  tagsRes : Except Str (List Str)
  addTagRes : Str → Except Str Unit

def PackageType.toStr : PackageType → Str
  | .npm => "npm".data
  | .go => "go".data
  | .cargo => "cargo".data

/-- GitOperations.createCommitMessage. -/
def createCommitMessage (pkg : PackageConfig) (oldVersion newVersion : Str) : Str :=
  "chore(".data ++ pkg.name ++ "): bump version to ".data ++ newVersion ++
    "\n\n- Updated ".data ++ PackageType.toStr pkg.ptype ++
    " package at ".data ++ pkg.path ++
    "\n- Previous version: ".data ++ oldVersion ++
    "\n- New version: ".data ++ newVersion

/-- GitOperations.stageAndCommit, returning the result together with the
log of git invocations performed.  In dry run it returns the placeholder
hash at once; otherwise it stages the primary file, stages each additional
file while swallowing individual failures, and commits. -/
def stageAndCommit (env : GitEnv) (pkg : PackageConfig) (filePath : Str)
    (oldVersion newVersion : Str) (dryRun : Bool)
    (additionalFiles : Option (List Str)) : GitOperationResult × List GitOp :=
  if dryRun then
    ({ success := true, commitHash := some ("dry-run".data) }, [])
  else
    match env.addRes filePath with
    | .error e => ({ success := false, error := some e }, [GitOp.add filePath])
    | .ok _ =>
      let addOps := (additionalFiles.getD []).map GitOp.add
      let message := createCommitMessage pkg oldVersion newVersion
      let ops := GitOp.add filePath :: addOps ++ [GitOp.commit message]
      match env.commitRes message with
      | .error e => ({ success := false, error := some e }, ops)
      | .ok h => ({ success := true, commitHash := some h }, ops)

/-- GitOperations.createTag: in dry run, immediate success with no git
invocation; otherwise fetch tags, refuse duplicates, create the tag. -/
def createTag (env : GitEnv) (tagName : Str) (dryRun : Bool) :
    GitOperationResult × List GitOp :=
  if dryRun then
    ({ success := true, tagName := some tagName }, [])
  else
    match env.tagsRes with
    | .error e =>
      ({ success := false, error := some e }, [GitOp.fetchTags, GitOp.tagList])
    | .ok tags =>
      if tags.contains tagName then
        ({ success := false, error := some ("tag already exists".data) },
          [GitOp.fetchTags, GitOp.tagList])
      else
        match env.addTagRes tagName with
        | .error e =>
          ({ success := false, error := some e },
            [GitOp.fetchTags, GitOp.tagList, GitOp.addTag tagName])
        | .ok _ =>
          ({ success := true, tagName := some tagName },
            [GitOp.fetchTags, GitOp.tagList, GitOp.addTag tagName])

end Gitops

namespace Proc

/-- PackageChange (types): one analyzed descriptor. -/
structure PackageChange where
  config : PackageConfig
  currentVersion : Str
  newVersion : Str
  needsUpdate : Bool
  willCreateTag : Bool
  tagName : Option Str := none
  deriving DecidableEq, Repr

/-- ProcessResult: the per-descriptor outcome recorded by the execute loop
(the fields createSummary consumes). -/
structure ProcessResult where
  package : PackageConfig
  updated : Bool
  skipped : Bool
  error : Option Str := none
  gitSuccess : Option Bool := none
  deriving DecidableEq, Repr

/-- RunSummary (Summary in types). -/
structure Summary where
  total : Nat
  updated : Nat
  skipped : Nat
  failed : Nat
  commits : Nat
  tags : Nat
  deriving DecidableEq, Repr

/-- Outcomes of the per-descriptor collaborator calls made by
PackageProcessor.processPackage (updater.updateVersion, gitOps
stageAndCommit and createTag).  The loop feeds no state of one iteration
into the calls of the next, so the outcomes are functions of the descriptor
alone. -/
structure ExecOutcomes where
  updateResult : PackageChange → UpdateResult
  commitSuccess : PackageChange → Bool
  tagSuccess : PackageChange → Bool

/-- The tag decision dispatch of createSummary through
PackageUpdaterFactory.getUpdater. -/
def shouldCreateTagFor (pkg : PackageConfig) : Bool :=
  match pkg.ptype with
  | .npm => Npm.shouldCreateTag pkg
  | .go => Go.shouldCreateTag pkg
  | .cargo => Rust.shouldCreateTag pkg

/-- PackageProcessor.processPackage: patch failure records the error;
commit failure yields an updated-but-uncommitted result; tag failure is
reported without changing the result. -/
def processPackage (env : ExecOutcomes) (change : PackageChange) : ProcessResult :=
  match env.updateResult change with
  | .failure e =>
    { package := change.config, updated := false, skipped := false, error := some e }
  | .success _ _ _ =>
    if env.commitSuccess change then
      { package := change.config, updated := true, skipped := false,
        gitSuccess := some true }
    else
      { package := change.config, updated := true, skipped := false,
        gitSuccess := some false }

/-- One iteration of the execute loop of PackageProcessor.process: skip
descriptors already at the target, else process them. -/
def processChange (env : ExecOutcomes) (change : PackageChange) : ProcessResult :=
  if ¬ change.needsUpdate then
    { package := change.config, updated := false, skipped := true }
  else processPackage env change

/-- The execute loop: strictly sequential, one result per descriptor. -/
def executePhase (env : ExecOutcomes) (changes : List PackageChange) :
    List ProcessResult :=
  changes.map (processChange env)

/-- PackageProcessor.createSummary. -/
def createSummary (results : List ProcessResult) : Summary :=
  { total := results.length
    updated := (results.filter (fun r => r.updated)).length
    skipped := (results.filter (fun r => r.skipped)).length
    failed := (results.filter (fun r => r.error.isSome)).length
    commits := (results.filter (fun r => r.updated && r.gitSuccess = some true)).length
    tags := (results.filter (fun r =>
      r.updated && r.gitSuccess = some true && shouldCreateTagFor r.package)).length }

/-- Whether the loop records a failure for a descriptor: it needed an
update and its patch came back unsuccessful. -/
def descriptorFails (env : ExecOutcomes) (change : PackageChange) : Bool :=
  change.needsUpdate && !(env.updateResult change).isSuccess

/-- The mutable state shared with the collaborators: the disk plus the log
of git invocations. -/
structure World where
  fs : Fs
  gitLog : List Gitops.GitOp
  deriving DecidableEq, Repr

/-- PackageProcessor.process around the execute loop: empty analysis ends
the run with an empty summary; a declined confirmation returns the empty
summary before any execution; otherwise the execute phase runs against the
world.  The execute phase is abstracted as a world transformer so the gate
theorems cover every loop body. -/
def process (changes : List PackageChange) (confirmed : Bool)
    (exec : World → List ProcessResult × World) (w : World) : Summary × World :=
  if changes.isEmpty then (createSummary [], w)
  else if ¬ confirmed then (createSummary [], w)
  else
    let r := exec w
    (createSummary r.1, r.2)

end Proc

/-! ## Concrete scenarios used by the end-to-end theorem and witnesses -/

/-- The member manifest of the end-to-end cargo scenario: explicit version
1.0.0. -/
def c1MemberToml : Str :=
  ("[package]\nname = \"core\"\nversion = \"1.0.0\"\n").data

/-- The workspace root manifest of the end-to-end scenario: it lists the
member, carries the shared workspace version (the propagation trigger) and a
workspace dependency entry for the member at 1.0.0. -/
def c1RootToml : Str :=
  ("[workspace]\nmembers = [\"crates/core\"]\n\n[workspace.package]\nversion = \"1.0.0\"\n\n[workspace.dependencies]\ncore = \"1.0.0\"\n").data

def c1Fs : Fs :=
  [(("crates/core/Cargo.toml").data, c1MemberToml),
   (("Cargo.toml").data, c1RootToml)]

/-- The member manifest after the update: only the version value changed. -/
def c1MemberTomlAfter : Str :=
  ("[package]\nname = \"core\"\nversion = \"2.0.0\"\n").data

/-- The root manifest after the update: shared version and the core
dependency entry rewritten, everything else untouched. -/
def c1RootTomlAfter : Str :=
  ("[workspace]\nmembers = [\"crates/core\"]\n\n[workspace.package]\nversion = \"2.0.0\"\n\n[workspace.dependencies]\ncore = \"2.0.0\"\n").data

/-- A standalone crate already at version 1.0.0, for the idempotence
witness. -/
def c3Fs : Fs :=
  [(("pkg/Cargo.toml").data,
    ("[package]\nname = \"p\"\nversion = \"1.0.0\"\n").data)]

/-- The npm descriptor of the repository's own test fixtures
(mockPackages.npm), with no create_tag flag. -/
def c5NpmPkg : PackageConfig :=
  { path := ("packages/web").data
    name := ("@myorg/web").data
    ptype := PackageType.npm
    version := ("1.2.3").data }

def c6Cfg (nm : Str) : PackageConfig :=
  { path := nm, name := nm, ptype := PackageType.npm, version := ("2.0.0").data }

def c6ChA : Proc.PackageChange :=
  { config := c6Cfg ("a").data, currentVersion := ("1.0.0").data
    newVersion := ("2.0.0").data, needsUpdate := true, willCreateTag := false }

def c6ChB : Proc.PackageChange :=
  { config := c6Cfg ("b").data, currentVersion := ("1.0.0").data
    newVersion := ("2.0.0").data, needsUpdate := true, willCreateTag := false }

/-- Collaborator outcomes forcing a patch failure on the first descriptor
and success elsewhere. -/
def c6Env : Proc.ExecOutcomes :=
  { updateResult := fun c =>
      if c.config.name = ("a").data then UpdateResult.failure (("patch failed").data)
      else UpdateResult.success (some c.currentVersion) c.newVersion none
    commitSuccess := fun _ => true
    tagSuccess := fun _ => true }

/-- A workspace whose member list names a crate with no manifest on disk. -/
def c8Cargo : CargoToml :=
  { workspaceMembers := [("ghost").data] }

def c9Fs : Fs :=
  [(("svc/go.mod").data, ("module example.com/svc\n\ngo 1.21\n").data)]

def c9Git : Except Str (List Str × Str) :=
  .ok ([("svc/v1.2.3").data], ['.'])

/-! ## Helper lemmas for the glob matcher -/

namespace Glob

theorem starLoop_iff (ok : Char → Bool) (k : Str → Bool) (P : Str → Prop)
    (hk : ∀ v, k v = true ↔ P v) :
    ∀ s, starLoop ok k s = true ↔
      ∃ u v, s = u ++ v ∧ (∀ c ∈ u, ok c = true) ∧ P v := by
  intro s
  induction s with
  | nil =>
    simp only [starLoop, hk]
    constructor
    · intro h
      exact ⟨[], [], rfl, by simp, h⟩
    · rintro ⟨u, v, huv, _, h⟩
      have hu : u = [] := by
        cases u with
        | nil => rfl
        | cons x xs => simp at huv
      have hv : v = [] := by
        cases hu
        simpa using huv.symm
      rwa [hv] at h
  | cons c s' ih =>
    simp only [starLoop, Bool.or_eq_true, Bool.and_eq_true, hk, ih]
    constructor
    · rintro (h | ⟨hc, u, v, huv, hu, h⟩)
      · exact ⟨[], c :: s', rfl, by simp, h⟩
      · exact ⟨c :: u, v, by simp [huv], by
          intro x hx
          rcases List.mem_cons.mp hx with rfl | hx
          · exact hc
          · exact hu x hx, h⟩
    · rintro ⟨u, v, huv, hu, h⟩
      cases u with
      | nil =>
        left
        have hv : v = c :: s' := by simpa using huv.symm
        rwa [hv] at h
      | cons x u' =>
        right
        have hx : c = x ∧ s' = u' ++ v := by
          constructor
          · have := congrArg (fun l => l.head?) huv
            simpa using this
          · have := congrArg (fun l => l.tail) huv
            simpa using this
        obtain ⟨hcx, hs⟩ := hx
        refine ⟨?_, u', v, hs, ?_, h⟩
        · rw [hcx]
          exact hu x (by simp)
        · intro y hy
          exact hu y (by simp [hy])

theorem gMatch_iff_sem (dotOk : Char → Bool) : ∀ (ts : List GTok) (s : Str),
    gMatch dotOk ts s = true ↔ GSem dotOk ts s := by
  intro ts
  induction ts with
  | nil =>
    intro s
    cases s with
    | nil => simp [gMatch, GSem]
    | cons c s' => simp [gMatch, GSem]
  | cons t ts ih =>
    cases t with
    | lit a =>
      intro s
      cases s with
      | nil =>
        simp [gMatch, GSem]
      | cons c s' =>
        simp only [gMatch, GSem, Bool.and_eq_true, decide_eq_true_eq, ih]
        constructor
        · rintro ⟨rfl, h⟩
          exact ⟨s', rfl, h⟩
        · rintro ⟨s'', heq, h⟩
          cases heq
          exact ⟨rfl, h⟩
    | optLit a =>
      intro s
      cases s with
      | nil =>
        simp [gMatch, GSem, ih]
      | cons c s' =>
        simp only [gMatch, GSem, Bool.or_eq_true, Bool.and_eq_true,
          decide_eq_true_eq, ih]
        constructor
        · rintro (h | ⟨rfl, h⟩)
          · exact Or.inl h
          · exact Or.inr ⟨s', rfl, h⟩
        · rintro (h | ⟨s'', heq, h⟩)
          · exact Or.inl h
          · cases heq
            exact Or.inr ⟨rfl, h⟩
    | oneStar =>
      intro s
      have h := starLoop_iff (fun c => decide (c ≠ '/')) (gMatch dotOk ts)
        (GSem dotOk ts) ih s
      simpa only [gMatch, GSem, decide_eq_true_eq] using h
    | twoStar =>
      intro s
      have h := starLoop_iff dotOk (gMatch dotOk ts) (GSem dotOk ts) ih s
      simpa only [gMatch, GSem] using h

end Glob

/-! ## General helper lemmas -/

theorem length_filter_map_eq {α β : Type} (f : α → β) (p : β → Bool)
    (l : List α) :
    ((l.map f).filter p).length = (l.filter (fun a => p (f a))).length := by
  induction l with
  | nil => rfl
  | cons a l ih =>
    simp only [List.map_cons, List.filter_cons]
    cases p (f a) <;> simp [ih]

theorem processChange_error_isSome (env : Proc.ExecOutcomes)
    (c : Proc.PackageChange) :
    (Proc.processChange env c).error.isSome = Proc.descriptorFails env c := by
  unfold Proc.processChange Proc.processPackage Proc.descriptorFails
  cases hn : c.needsUpdate with
  | false => simp
  | true =>
    simp only [Bool.not_true, Bool.true_and]
    cases hu : env.updateResult c with
    | failure e => simp [UpdateResult.isSuccess]
    | success o n a =>
      cases hc : env.commitSuccess c <;> simp [UpdateResult.isSuccess]

/-! ## Claim theorems -/

/-- C4 counterexample: the claim's reading - every character other than the
stars is literal - is false of the program.  The escape class of
getWorkspaceGlobPattern omits the question mark, so in the compiled regex
it is a quantifier: the member pattern crates/*a? matches the path crates/x
in the code, while under the claimed all-literal semantics (the pattern
would require a literal a followed by a literal question mark) it must not
match. -/
theorem claim4_counterexample :
    Rust.matchesWorkspaceMember [("crates/*a?").data] (("crates/x").data) =
      .ok true ∧
    ¬ (("crates/*a?").data = ("crates/x").data ∨
        Glob.GSem (fun _ => true)
          (Glob.specGlobTokens (("crates/*a?").data)) (("crates/x").data)) := by
  constructor
  · decide
  · rintro (h | h)
    · exact absurd h (by decide)
    · have hb := (Glob.gMatch_iff_sem (fun _ => true)
        (Glob.specGlobTokens (("crates/*a?").data)) (("crates/x").data)).mpr h
      exact absurd hb (by decide)

/-- C4 (amended): for every member pattern and candidate relative path,
matching is exact string equality, or - when the pattern contains a star -
acceptance by the compiled pattern, in which two stars match any
characters the engine's dot accepts (separators included, line terminators
excluded), one star matches any characters excluding the separator, an
unescaped question mark - which the code's escape class leaves unescaped -
makes the preceding element optional (a question mark with nothing to
repeat makes the pattern an invalid regex, reported as an error instead of
a match), and every other character is literal; in particular crates/*
matches crates/core but not crates/core/nested, and crates/** matches
both. -/
theorem claim4_glob_matching_amended :
    (∀ (m relPath : Str),
      Rust.matchesWorkspaceMember [m] relPath = .ok true ↔
        (m = relPath ∨ (m.contains '*' = true ∧
          ∃ toks, Glob.globCompile m = some toks ∧
            Glob.GSem Glob.jsDot toks relPath))) ∧
    Rust.matchesWorkspaceMember [("crates/*").data] (("crates/core").data) = .ok true ∧
    Rust.matchesWorkspaceMember [("crates/*").data] (("crates/core/nested").data) = .ok false ∧
    Rust.matchesWorkspaceMember [("crates/**").data] (("crates/core").data) = .ok true ∧
    Rust.matchesWorkspaceMember [("crates/**").data] (("crates/core/nested").data) = .ok true := by
  refine ⟨?_, by decide, by decide, by decide, by decide⟩
  intro m relPath
  by_cases h1 : m = relPath
  · simp [Rust.matchesWorkspaceMember, h1]
  · by_cases h2 : m.contains '*' = true
    · have h2m : '*' ∈ m := by simpa using h2
      cases hc : Glob.globCompile m with
      | none =>
        simp [Rust.matchesWorkspaceMember, h1, h2m, hc]
      | some toks =>
        by_cases hm : Glob.gMatch Glob.jsDot toks relPath = true
        · constructor
          · intro _
            exact Or.inr ⟨h2, toks, rfl, (Glob.gMatch_iff_sem _ _ _).mp hm⟩
          · intro _
            simp [Rust.matchesWorkspaceMember, h1, h2m, hc, hm]
        · constructor
          · intro hL
            exfalso
            simp [Rust.matchesWorkspaceMember, h1, h2m, hc, hm] at hL
          · rintro (h | ⟨_, toks', htoks, hsem⟩)
            · exact absurd h h1
            · exfalso
              injection htoks with he
              subst he
              exact absurd ((Glob.gMatch_iff_sem _ _ _).mpr hsem) hm
    · have h2m : ¬ ('*' ∈ m) := by simpa using h2
      simp [Rust.matchesWorkspaceMember, h1, h2, h2m]

/-- C5 (code behavior at the failing input): for an npm descriptor with no
create_tag flag - the repository's own test fixture - the shipped
shouldCreateTag returns true, so a tag is created by default, contradicting
the claimed default-off behavior (and the repository's own npm updater
test); the tag name is v followed by the version as claimed. -/
theorem claim5_npm_tag_default_on :
    c5NpmPkg.create_tag = none ∧
    Npm.shouldCreateTag c5NpmPkg = true ∧
    Npm.getTagName c5NpmPkg = ('v' :: ("1.2.3").data) := by
  decide

/-- C6: the execute phase produces exactly one result per planned
descriptor, the result at every position is a function of that descriptor
alone (so a failure at position N cannot prevent position N+1 from being
processed and succeeding), and the summary's failed count equals exactly
the number of descriptors whose patch failed. -/
theorem claim6_sequential_isolation :
    ∀ (env : Proc.ExecOutcomes) (changes : List Proc.PackageChange),
      (Proc.executePhase env changes).length = changes.length ∧
      (∀ (i : Nat) (h : i < (Proc.executePhase env changes).length)
        (h' : i < changes.length),
        (Proc.executePhase env changes).get ⟨i, h⟩ =
          Proc.processChange env (changes.get ⟨i, h'⟩)) ∧
      (Proc.createSummary (Proc.executePhase env changes)).failed =
        (changes.filter (fun c => Proc.descriptorFails env c)).length := by
  intro env changes
  refine ⟨by simp [Proc.executePhase], ?_, ?_⟩
  · intro i h h'
    simp [Proc.executePhase]
  · show ((changes.map (Proc.processChange env)).filter
      (fun r => r.error.isSome)).length = _
    rw [length_filter_map_eq]
    have hpred : (fun a => (Proc.processChange env a).error.isSome) =
        (fun c => Proc.descriptorFails env c) := by
      funext c
      exact processChange_error_isSome env c
    rw [hpred]

/-- Witness for C6: with a forced patch failure on the first of two
descriptors, the second is still processed, succeeds, and the failed count
is exactly one. -/
theorem claim6_witness :
    (Proc.executePhase c6Env [c6ChA, c6ChB]).get ⟨1, by decide⟩ =
      Proc.processChange c6Env c6ChB ∧
    (Proc.processChange c6Env c6ChB).error = none ∧
    ((Proc.executePhase c6Env [c6ChA, c6ChB]).get ⟨0, by decide⟩).error.isSome = true ∧
    (Proc.createSummary (Proc.executePhase c6Env [c6ChA, c6ChB])).failed = 1 :=
  ⟨(claim6_sequential_isolation c6Env [c6ChA, c6ChB]).2.1 1 (by decide) (by decide),
   by decide, by decide, by decide⟩

/-- C7: a declined confirmation gate aborts the run with the world (disk
and git log) unchanged - no file written, no git operation - and returns
the empty summary, whose counts are all zero. -/
theorem claim7_decline_aborts :
    ∀ (changes : List Proc.PackageChange)
      (exec : Proc.World → List Proc.ProcessResult × Proc.World)
      (w : Proc.World),
      Proc.process changes false exec w = (Proc.createSummary [], w) ∧
      Proc.createSummary [] =
        { total := 0, updated := 0, skipped := 0, failed := 0,
          commits := 0, tags := 0 } := by
  intro changes exec w
  constructor
  · unfold Proc.process
    by_cases h : changes.isEmpty <;> simp [h]
  · rfl

/-- C1: the end-to-end cargo scenario - one descriptor at crates/core with
target 2.0.0, its manifest at explicit version 1.0.0, inside a workspace
whose root carries the shared workspace version (the propagation trigger)
and a workspace dependency entry core = 1.0.0 - updates the member file to
2.0.0, rewrites the root's core entry to 2.0.0, and returns
additionalFiles containing exactly the root manifest path. -/
theorem claim1_end_to_end :
    (Rust.updateVersion c1Fs (("crates/core").data) (("2.0.0").data) false).1 =
      UpdateResult.success (some (("1.0.0").data)) (("2.0.0").data)
        (some [("Cargo.toml").data]) ∧
    readFs (Rust.updateVersion c1Fs (("crates/core").data) (("2.0.0").data) false).2
      (("crates/core/Cargo.toml").data) = some c1MemberTomlAfter ∧
    readFs (Rust.updateVersion c1Fs (("crates/core").data) (("2.0.0").data) false).2
      (("Cargo.toml").data) = some c1RootTomlAfter := by
  decide

/-- C3: when the package's currently effective version already equals the
target, the rust updater's updateVersion is a no-op success: it reports
success (not an error), lists no additional files, and leaves the
filesystem byte-identical. -/
theorem claim3_idempotent_noop :
    ∀ (fs : Fs) (packagePath newVersion : Str) (dryRun : Bool),
      Rust.readVersion fs packagePath = .ok newVersion →
      Rust.updateVersion fs packagePath newVersion dryRun =
        (UpdateResult.success (some newVersion) newVersion none, fs) := by
  intro fs p v dry h
  have hex : ∃ content, readFs fs (Rust.getPackageFilePath p) = some content := by
    unfold Rust.readVersion at h
    cases hc : readFs fs (Rust.getPackageFilePath p) with
    | none =>
      rw [hc] at h
      exact Except.noConfusion h
    | some c => exact ⟨c, rfl⟩
  obtain ⟨content, hr⟩ := hex
  unfold Rust.updateVersion
  simp [hr, h]

/-- Witness for C3 on a concrete crate already at the target version. -/
theorem claim3_witness :
    Rust.readVersion c3Fs (("pkg").data) = .ok (("1.0.0").data) ∧
    Rust.updateVersion c3Fs (("pkg").data) (("1.0.0").data) false =
      (UpdateResult.success (some (("1.0.0").data)) (("1.0.0").data) none, c3Fs) :=
  ⟨by decide,
   claim3_idempotent_noop c3Fs (("pkg").data) (("1.0.0").data) false (by decide)⟩

/-- C9: the go updater never modifies the filesystem (dry run or not), and
whenever go.mod exists and contains a module directive, updateVersion
returns success carrying the tag-derived old version and the target
version, with the file contents untouched. -/
theorem claim9_go_frame :
    ∀ (git : Except Str (List Str × Str)) (fs : Fs) (p v : Str) (dry : Bool),
      (Go.updateVersion git fs p v dry).2 = fs ∧
      (∀ content, readFs fs (Go.getPackageFilePath p) = some content →
        Go.hasModuleLine content = true →
        ∃ old, Go.readVersion git fs p = Except.ok old ∧
          Go.updateVersion git fs p v dry =
            (UpdateResult.success (some old) v none, fs)) := by
  intro git fs p v dry
  have hframe : (Go.updateVersion git fs p v dry).2 = fs := by
    unfold Go.updateVersion
    cases hr : readFs fs (Go.getPackageFilePath p) with
    | none => rfl
    | some content =>
      cases hv : Go.readVersion git fs p with
      | error e => rfl
      | ok old => rfl
  refine ⟨hframe, ?_⟩
  intro content hc hm
  have hok : ∃ old, Go.readVersion git fs p = .ok old := by
    unfold Go.readVersion
    rw [hc]
    simp only [hm]
    cases git with
    | error e => exact ⟨_, rfl⟩
    | ok tg => simp
  obtain ⟨old, hold⟩ := hok
  refine ⟨old, hold, ?_⟩
  unfold Go.updateVersion
  rw [hc, hold]

/-- Witness for C9 on a concrete nested go module with one matching tag. -/
theorem claim9_witness :
    (Go.updateVersion c9Git c9Fs (("svc").data) (("2.0.0").data) false).2 = c9Fs ∧
    readFs c9Fs (Go.getPackageFilePath (("svc").data)) =
      some (("module example.com/svc\n\ngo 1.21\n").data) ∧
    Go.hasModuleLine (("module example.com/svc\n\ngo 1.21\n").data) = true ∧
    ∃ old, Go.readVersion c9Git c9Fs (("svc").data) = .ok old ∧
      Go.updateVersion c9Git c9Fs (("svc").data) (("2.0.0").data) false =
        (UpdateResult.success (some old) (("2.0.0").data) none, c9Fs) :=
  ⟨(claim9_go_frame c9Git c9Fs (("svc").data) (("2.0.0").data) false).1,
   by decide, by decide,
   (claim9_go_frame c9Git c9Fs (("svc").data) (("2.0.0").data) false).2
     (("module example.com/svc\n\ngo 1.21\n").data) (by decide) (by decide)⟩

/-! ## Helper lemmas for the section window bounds -/

theorem lastNewlineIdxAux_lt :
    ∀ (r : Str) (i : Nat) (best : Option Nat),
      (∀ j, best = some j → j < i) →
      ∀ j, lastNewlineIdxAux r i best = some j → j < i + r.length := by
  intro r
  induction r with
  | nil =>
    intro i best hb j hj
    simp only [lastNewlineIdxAux] at hj
    simpa using hb j hj
  | cons c rest ih =>
    intro i best hb j hj
    simp only [lastNewlineIdxAux] at hj
    have hstep : ∀ j', (if c = '\n' then some i else best) = some j' → j' < i + 1 := by
      intro j' hj'
      by_cases hc : c = '\n'
      · simp [hc] at hj'
        omega
      · simp [hc] at hj'
        exact Nat.lt_trans (hb j' hj') (by omega)
    have := ih (i + 1) _ hstep j hj
    simpa [Nat.add_comm, Nat.add_left_comm] using this

theorem lastNewlineIdx_lt (r : Str) (j : Nat) :
    lastNewlineIdx r = some j → j < r.length := by
  intro h
  have := lastNewlineIdxAux_lt r 0 none (by simp) j h
  simpa using this

theorem wsDollarLenM_le (s : Str) (k : Nat) :
    wsDollarLenM s = some k → k ≤ s.length := by
  intro hk
  simp only [wsDollarLenM] at hk
  split at hk
  · injection hk with hk
    omega
  · have h1 := lastNewlineIdx_lt _ _ hk
    have h2 : (s.takeWhile isWsChar).length ≤ s.length :=
      (List.takeWhile_prefix _).length_le
    omega

theorem headerMatchLenAt_le (target s : Str) (len : Nat) :
    headerMatchLenAt target s = some len → len ≤ s.length := by
  intro h
  simp only [headerMatchLenAt] at h
  split at h
  case isTrue hpre =>
    cases hk : wsDollarLenM (s.drop target.length) with
    | none => rw [hk] at h; exact Option.noConfusion h
    | some k =>
      rw [hk] at h
      injection h with h
      have h1 := wsDollarLenM_le _ _ hk
      have h2 : target.length ≤ s.length :=
        (List.isPrefixOf_iff_prefix.mp hpre).length_le
      have h3 : (s.drop target.length).length = s.length - target.length :=
        List.length_drop _ _
      omega
  case isFalse _ => exact Option.noConfusion h

theorem findHeaderAux_le (target : Str) :
    ∀ (s : Str) (pos : Nat) (b : Bool) (i len : Nat),
      findHeaderAux target s pos b = some (i, len) → i + len ≤ pos + s.length := by
  intro s
  induction s with
  | nil =>
    intro pos b i len h
    simp only [findHeaderAux] at h
    cases hb : (if b then headerMatchLenAt target [] else none) with
    | none => rw [hb] at h; exact Option.noConfusion h
    | some l =>
      rw [hb] at h
      injection h with h
      have hl : l ≤ ([] : Str).length := by
        cases b with
        | false => simp at hb
        | true =>
          simp only [if_true] at hb
          exact headerMatchLenAt_le target [] l hb
      simp at hl
      cases h
      omega
  | cons c rest ih =>
    intro pos b i len h
    simp only [findHeaderAux] at h
    cases hb : (if b then headerMatchLenAt target (c :: rest) else none) with
    | none =>
      rw [hb] at h
      have := ih (pos + 1) (decide (c = '\n')) i len h
      simp only [List.length_cons]
      omega
    | some l =>
      rw [hb] at h
      injection h with h
      have hl : l ≤ (c :: rest).length := by
        cases b with
        | false => simp at hb
        | true =>
          simp only [if_true] at hb
          exact headerMatchLenAt_le target (c :: rest) l hb
      cases h
      omega

theorem findNextHeaderIdx_lt :
    ∀ (s : Str) (j : Nat), findNextHeaderIdx s = some j → j < s.length := by
  intro s
  induction s with
  | nil =>
    intro j h
    simp [findNextHeaderIdx] at h
  | cons c rest ih =>
    intro j h
    simp only [findNextHeaderIdx] at h
    by_cases hc : (c = '\n' && nextHeaderAt rest) = true
    · simp only [hc, if_true] at h
      injection h with h
      simp only [List.length_cons]
      omega
    · simp only [hc, if_false] at h
      cases hrec : findNextHeaderIdx rest with
      | none => simp [hrec] at h
      | some j' =>
        simp [hrec] at h
        have := ih j' hrec
        simp only [List.length_cons]
        omega

theorem getSectionRange_spec (content hdr : Str) (rg : SectionRange) :
    getSectionRange content hdr = some rg →
      rg.startPos ≤ rg.endPos ∧ rg.endPos ≤ content.length ∧
      rg.body = (content.drop rg.startPos).take (rg.endPos - rg.startPos) := by
  intro h
  unfold getSectionRange at h
  cases hf : findHeaderAux ('[' :: hdr ++ [']']) content 0 true with
  | none =>
    simp only [hf] at h
    exact Option.noConfusion h
  | some il =>
    obtain ⟨i, len⟩ := il
    simp only [hf] at h
    have hle : i + len ≤ content.length := by
      have := findHeaderAux_le ('[' :: hdr ++ [']']) content 0 true i len hf
      simpa using this
    cases hn : findNextHeaderIdx (content.drop (i + len)) with
    | none =>
      simp only [hn] at h
      injection h with h
      cases h
      exact ⟨hle, Nat.le_refl _, rfl⟩
    | some j =>
      simp only [hn] at h
      injection h with h
      have hj := findNextHeaderIdx_lt _ j hn
      rw [List.length_drop] at hj
      cases h
      refine ⟨?_, ?_, rfl⟩
      · show i + len ≤ i + len + j
        omega
      · show i + len + j ≤ content.length
        omega

theorem list_decomp {α : Type} (l : List α) (a b : Nat) (hab : a ≤ b) :
    l = l.take a ++ ((l.drop a).take (b - a) ++ l.drop b) := by
  conv_lhs => rw [← List.take_append_drop a l]
  congr 1
  conv_lhs => rw [← List.take_append_drop (b - a) (l.drop a)]
  congr 1
  rw [List.drop_drop]
  congr 1
  omega

/-- C2: the bounded-region patch never touches a byte outside the matched
section window: either the content is returned unchanged, or the result is
the untouched bytes before the window, a replacement for the window body,
and the untouched bytes after the window, in the original order - so
unrelated sections are never rewritten or re-ordered. -/
theorem claim2_bounded_region :
    ∀ (content sectionHeader newVersion : Str),
      (updateVersionInSection content sectionHeader newVersion).1 = content ∨
      ∃ rg mid, getSectionRange content sectionHeader = some rg ∧
        content =
          content.take rg.startPos ++ (rg.body ++ content.drop rg.endPos) ∧
        (updateVersionInSection content sectionHeader newVersion).1 =
          content.take rg.startPos ++ (mid ++ content.drop rg.endPos) := by
  intro content hdr v
  unfold updateVersionInSection
  cases hg : getSectionRange content hdr with
  | none => left; rfl
  | some rg =>
    cases hp : patchVersionLines (rg.body.splitOn '\n') v with
    | none =>
      left
      simp [hp]
    | some newLines =>
      by_cases he : List.intercalate ['\n'] newLines = rg.body
      · left
        simp [hp, he]
      · right
        refine ⟨rg, List.intercalate ['\n'] newLines, rfl, ?_, ?_⟩
        · obtain ⟨h1, _, h3⟩ := getSectionRange_spec content hdr rg hg
          conv_lhs => rw [list_decomp content rg.startPos rg.endPos h1]
          rw [h3]
        · simp [hp, he, List.append_assoc]

/-! ## Helper lemmas for the filesystem and the member loop -/

theorem readFs_cons (e : Str × Str) (fs : Fs) (q : Str) :
    readFs (e :: fs) q = if e.1 = q then some e.2 else readFs fs q := by
  by_cases h : e.1 = q <;> simp [readFs, List.find?, h]

theorem readFs_writeFs (fs : Fs) (p c q : Str) :
    readFs (writeFs fs p c) q = if q = p then some c else readFs fs q := by
  induction fs with
  | nil =>
    by_cases h : q = p
    · subst h
      simp [writeFs, readFs_cons]
    · have h2 : ¬ (p = q) := fun hc => h hc.symm
      simp [writeFs, readFs_cons, readFs, List.find?, h, h2]
  | cons e rest ih =>
    by_cases he : e.1 = p
    · simp only [writeFs, he, if_true, readFs_cons]
      by_cases h : q = p
      · subst h
        simp
      · have h2 : ¬ (p = q) := fun hc => h hc.symm
        have h3 : ¬ (e.1 = q) := by
          rw [he]
          exact h2
        simp [h, h2, h3]
    · simp only [writeFs, he, if_false, readFs_cons]
      by_cases hq : e.1 = q
      · have h : ¬ (q = p) := by
          intro hc
          apply he
          rw [hq, hc]
        simp [hq, h]
      · simp [hq, ih]

theorem membersAux_preserves_absent (root v : Str) (dry : Bool) :
    ∀ (ms : List Str) (fs : Fs) (uf nm : List Str) (q : Str),
      readFs fs q = none →
      readFs (Rust.updateWorkspaceMembersAux root v dry ms fs uf nm).2.2 q = none := by
  intro ms
  induction ms with
  | nil =>
    intro fs uf nm q hq
    simpa [Rust.updateWorkspaceMembersAux] using hq
  | cons m rest ih =>
    intro fs uf nm q hq
    unfold Rust.updateWorkspaceMembersAux
    cases hr : readFs fs (Rust.getPackageFilePath (joinPath root m)) with
    | none => exact ih fs uf nm q hq
    | some mc =>
      cases hv : (parseCargoToml mc).packageVersion with
      | none =>
        simp only [hv]
        exact ih fs uf _ q hq
      | some ver =>
        simp only [hv]
        by_cases hvv : ver = v
        · simp only [if_pos hvv]
          exact ih fs uf _ q hq
        · rw [if_neg hvv]
          by_cases hu : (Rust.updatePackageVersion mc v).2 = true
          · simp only [hu, if_true]
            refine ih _ _ _ q ?_
            cases dry with
            | true => simpa using hq
            | false =>
              simp only [Bool.false_eq_true, if_false]
              rw [readFs_writeFs]
              have hne : ¬ (q = Rust.getPackageFilePath (joinPath root m)) := by
                intro hc
                rw [hc] at hq
                rw [hq] at hr
                exact Option.noConfusion hr
              simp [hne, hq]
          · simp only [hu, if_false]
            exact ih fs uf _ q hq

theorem membersAux_skip (root v : Str) (dry : Bool) (m : Str) :
    ∀ (ms₁ ms₂ : List Str) (fs : Fs) (uf nm : List Str),
      readFs fs (Rust.getPackageFilePath (joinPath root m)) = none →
      Rust.updateWorkspaceMembersAux root v dry (ms₁ ++ m :: ms₂) fs uf nm =
        Rust.updateWorkspaceMembersAux root v dry (ms₁ ++ ms₂) fs uf nm := by
  intro ms₁
  induction ms₁ with
  | nil =>
    intro ms₂ fs uf nm habs
    simp only [List.nil_append]
    conv_lhs => rw [Rust.updateWorkspaceMembersAux]
    rw [habs]
  | cons m' ms₁ ih =>
    intro ms₂ fs uf nm habs
    simp only [List.cons_append]
    conv_lhs => rw [Rust.updateWorkspaceMembersAux]
    conv_rhs => rw [Rust.updateWorkspaceMembersAux]
    cases hr : readFs fs (Rust.getPackageFilePath (joinPath root m')) with
    | none => exact ih ms₂ fs uf nm habs
    | some mc =>
      cases hv : (parseCargoToml mc).packageVersion with
      | none =>
        simp only [hv]
        exact ih ms₂ fs uf _ habs
      | some ver =>
        simp only [hv]
        by_cases hvv : ver = v
        · simp only [if_pos hvv]
          exact ih ms₂ fs uf _ habs
        · rw [if_neg hvv, if_neg hvv]
          by_cases hu : (Rust.updatePackageVersion mc v).2 = true
          · simp only [hu, if_true]
            refine ih ms₂ _ _ _ ?_
            cases dry with
            | true => simpa using habs
            | false =>
              simp only [Bool.false_eq_true, if_false]
              rw [readFs_writeFs]
              have hne : ¬ (Rust.getPackageFilePath (joinPath root m) =
                  Rust.getPackageFilePath (joinPath root m')) := by
                intro hc
                rw [hc] at habs
                rw [habs] at hr
                exact Option.noConfusion hr
              simp [hne, habs]
          · simp only [hu, if_false]
            exact ih ms₂ fs uf _ habs

/-- C8: a workspace member pattern whose manifest file does not exist on
disk is skipped silently during propagation - the member loop behaves
exactly as if the member were not listed at all: no error, no write, no
name collected and no updated-files entry. -/
theorem claim8_missing_member_skipped :
    ∀ (fs : Fs) (root newVersion : Str) (dryRun : Bool) (cargo : CargoToml)
      (ms₁ ms₂ : List Str) (m : Str),
      cargo.workspaceMembers = ms₁ ++ m :: ms₂ →
      readFs fs (Rust.getPackageFilePath (joinPath root m)) = none →
      Rust.updateWorkspaceMembers fs root cargo newVersion dryRun =
        Rust.updateWorkspaceMembers fs root
          { cargo with workspaceMembers := ms₁ ++ ms₂ } newVersion dryRun := by
  intro fs root v dry cargo ms₁ ms₂ m hmem habs
  unfold Rust.updateWorkspaceMembers
  simp only [hmem]
  exact membersAux_skip root v dry m ms₁ ms₂ fs [] [] habs

/-- Witness for C8: the listed member ghost has no manifest in the empty
filesystem, and the member pass equals the pass with ghost removed. -/
theorem claim8_witness :
    readFs ([] : Fs) (Rust.getPackageFilePath (joinPath ['.'] (("ghost").data))) = none ∧
    Rust.updateWorkspaceMembers [] ['.'] c8Cargo (("2.0.0").data) false =
      Rust.updateWorkspaceMembers [] ['.']
        { c8Cargo with workspaceMembers := [] ++ [] } (("2.0.0").data) false :=
  ⟨by decide,
   claim8_missing_member_skipped [] ['.'] (("2.0.0").data) false c8Cargo [] []
     (("ghost").data) (by decide) (by decide)⟩

/-! ## Helper lemmas for the dry-run frame -/

theorem membersAux_dry (root v : Str) :
    ∀ (ms : List Str) (fs : Fs) (uf nm : List Str),
      (Rust.updateWorkspaceMembersAux root v true ms fs uf nm).2.2 = fs := by
  intro ms
  induction ms with
  | nil =>
    intro fs uf nm
    rfl
  | cons m rest ih =>
    intro fs uf nm
    unfold Rust.updateWorkspaceMembersAux
    cases hr : readFs fs (Rust.getPackageFilePath (joinPath root m)) with
    | none => exact ih fs uf nm
    | some mc =>
      cases hv : (parseCargoToml mc).packageVersion with
      | none =>
        simp only [hv]
        exact ih fs uf _
      | some ver =>
        simp only [hv]
        by_cases hvv : ver = v
        · simp only [if_pos hvv]
          exact ih fs uf _
        · rw [if_neg hvv]
          by_cases hu : (Rust.updatePackageVersion mc v).2 = true
          · simp only [hu, if_true]
            simpa using ih fs _ _
          · simp only [hu, if_false]
            exact ih fs uf _

theorem updateWorkspaceMembers_dry (fs : Fs) (root : Str) (cargo : CargoToml)
    (v : Str) :
    (Rust.updateWorkspaceMembers fs root cargo v true).2.2 = fs :=
  membersAux_dry root v cargo.workspaceMembers fs [] []

theorem rust_dry_frame (fs : Fs) (p v : Str) :
    (Rust.updateVersion fs p v true).2 = fs := by
  cases h1 : readFs fs (Rust.getPackageFilePath p) with
  | none => simp [Rust.updateVersion, h1]
  | some content =>
    cases h2 : Rust.readVersion fs p with
    | error e => simp [Rust.updateVersion, h1, h2]
    | ok old =>
      by_cases h3 : old = v
      · simp [Rust.updateVersion, h1, h2, h3]
      · cases h4 : Rust.resolveWorkspaceRoot fs p (parseCargoToml content) with
        | error e => simp [Rust.updateVersion, h1, h2, h3, h4]
        | ok wopt =>
          simp only [Rust.updateVersion, h1, h2, h4]
          rw [if_neg h3]
          repeat' split
          all_goals (try simp_all [updateWorkspaceMembers_dry])
          all_goals (repeat' split)
          all_goals rfl

/-- C10: in dry-run mode no persistent state changes: the rust and npm
updaters leave the filesystem byte-identical, and stageAndCommit and
createTag perform no git operation at all while still reporting success,
stageAndCommit with the placeholder dry-run commit hash. -/
theorem claim10_dry_run_no_mutation :
    (∀ (fs : Fs) (p v : Str), (Rust.updateVersion fs p v true).2 = fs) ∧
    (∀ (J : Type) (lib : Npm.JsonLib J) (installRes : Str → Except Str Unit)
       (fs : Fs) (p v : Str),
      (Npm.updateVersion lib installRes fs p v true).2 = fs) ∧
    (∀ (env : Gitops.GitEnv) (pkg : PackageConfig) (filePath oldV newV : Str)
       (addl : Option (List Str)),
      Gitops.stageAndCommit env pkg filePath oldV newV true addl =
        ({ success := true, commitHash := some (("dry-run").data) }, [])) ∧
    (∀ (env : Gitops.GitEnv) (tagName : Str),
      Gitops.createTag env tagName true =
        ({ success := true, tagName := some tagName }, [])) := by
  refine ⟨?_, ?_, ?_, ?_⟩
  · exact rust_dry_frame
  · intro J lib installRes fs p v
    cases h1 : readFs fs (Npm.getPackageFilePath p) with
    | none => simp [Npm.updateVersion, h1]
    | some content =>
      cases h2 : lib.parse content with
      | error e => simp [Npm.updateVersion, h1, h2]
      | ok pkg => simp [Npm.updateVersion, h1, h2]
  · intro env pkg filePath oldV newV addl
    rfl
  · intro env tagName
    rfl
